import Mathlib

/-!
Shallow embedding of the payment-processor ledger core
(`src/structures.rs`, `src/errors.rs`) and proofs of the stated
properties of `ClientAccount::apply_transaction`.

Embedding conventions:
* Rust `f64` amounts are modelled as `Rat`.
* `HashMap<u32, Transaction>` is modelled as an association list with
  overwrite-on-insert (`hInsert`) and first-match lookup (`hGet`);
  keys are unique in any list built by `hInsert`, so this agrees with
  the map semantics.
* A Rust panic (`expect` on a `None` amount) is modelled by the
  `Option` layer of `applyTransaction`: `none` means the call panics,
  `some (r, a)` means it returns result `r` leaving the account `a`.
* `Result<(), KrakenError>` is modelled by `TxResult`.
-/

namespace PaymentProcessor

/-- The five transaction kinds of `TransactionType` in `structures.rs`. -/
inductive TransactionType where
  | Deposit
  | Withdrawal
  | Dispute
  | Resolve
  | Chargeback
deriving DecidableEq

/-- The error enum `KrakenError` of `errors.rs`.  `NoSuchTransactionError`
carries the transaction id, as it is applied in `apply_transaction`; the
input-file variant is named `IOError` here. -/
inductive KrakenError where
  | IOError
  | Enum (msg : String)
  | DisputeChronoError (base : Nat) (attempt : Nat)
  | DisputeStateError (msg : String)
  | NoSuchTransactionError (tx : Nat)
  | AccountLocked (client : Nat)
  | InsufficientFunds (client : Nat)
  | Error
deriving DecidableEq

/-- The `Transaction` struct of `structures.rs`.  `state` is the dispute
bookkeeping field: `none` is undisputed, `some Dispute` disputed,
`some Resolve` resolved, `some Chargeback` charged back. -/
structure Transaction where
  kind : TransactionType
  client : Nat
  amount : Option Rat
  tx : Nat
  state : Option TransactionType
deriving DecidableEq

/-- First-match lookup in the history association list, the model of
`HashMap::get` / `get_mut`. -/
def hGet : List (Nat × Transaction) → Nat → Option Transaction
  | [], _ => none
  | (k, t) :: rest, key => if k = key then some t else hGet rest key

/-- Overwriting insertion, the model of `HashMap::insert`: an existing
entry under the same key is replaced, otherwise the pair is appended. -/
def hInsert : List (Nat × Transaction) → Nat → Transaction → List (Nat × Transaction)
  | [], key, t => [(key, t)]
  | (k, u) :: rest, key, t =>
      if k = key then (key, t) :: rest else (k, u) :: hInsert rest key t

/-- The `ClientAccount` struct of `structures.rs`. -/
structure ClientAccount where
  available : Rat
  held : Rat
  locked : Bool
  history : List (Nat × Transaction)
deriving DecidableEq

/-- `ClientAccount::total`. -/
def ClientAccount.total (a : ClientAccount) : Rat :=
  a.available + a.held

/-- `ClientAccount::default()`: zeroed balances, unlocked, empty history. -/
def defaultAccount : ClientAccount :=
  { available := 0, held := 0, locked := false, history := [] }

/-- Model of `Result<(), KrakenError>`. -/
inductive TxResult where
  | ok
  | err (e : KrakenError)
deriving DecidableEq

/-- `ClientAccount::apply_transaction`, translated arm by arm from
`structures.rs`.  The outer `Option` models panics: every `expect` on a
missing amount becomes `none`. -/
def ClientAccount.applyTransaction (a : ClientAccount) (t : Transaction) :
    Option (TxResult × ClientAccount) :=
  match t.kind with
  | .Deposit =>
      if a.locked then some (.err (.AccountLocked t.client), a)
      else
        match t.amount with
        | none => none
        | some amt =>
            some (.ok, { a with available := a.available + amt,
                                history := hInsert a.history t.tx t })
  | .Withdrawal =>
      if a.locked then some (.err (.AccountLocked t.client), a)
      else
        match t.amount with
        | none => none
        | some amt =>
            if a.available < amt then some (.err (.InsufficientFunds t.client), a)
            else
              some (.ok, { a with available := a.available - amt,
                                  history := hInsert a.history t.tx t })
  | .Dispute =>
      match hGet a.history t.tx with
      | none => some (.err (.NoSuchTransactionError t.tx), a)
      | some stored =>
          if stored.state.isSome then
            some (.err (.DisputeStateError "Transaction already disputed"), a)
          else if stored.kind ≠ TransactionType.Deposit then
            some (.err .Error, a)
          else
            match stored.amount with
            | none => none
            | some amt =>
                some (.ok, { a with
                  available := a.available - amt,
                  held := a.held + amt,
                  history := hInsert a.history t.tx { stored with state := some .Dispute } })
  | .Resolve =>
      match hGet a.history t.tx with
      | none => some (.err (.NoSuchTransactionError t.tx), a)
      | some stored =>
          match stored.state with
          | some .Dispute =>
              match stored.amount with
              | none => none
              | some amt =>
                  some (.ok, { a with
                    available := a.available + amt,
                    held := a.held - amt,
                    history := hInsert a.history t.tx { stored with state := some .Resolve } })
          | _ => some (.err (.DisputeStateError "Cannot resolve transaction not in dispute"), a)
  | .Chargeback =>
      match hGet a.history t.tx with
      | none => some (.err (.NoSuchTransactionError t.tx), a)
      | some stored =>
          match stored.state with
          | some .Dispute =>
              match stored.amount with
              | none => none
              | some amt =>
                  some (.ok, { a with
                    held := a.held - amt,
                    locked := true,
                    history := hInsert a.history t.tx { stored with state := some .Chargeback } })
          | _ => some (.err (.DisputeStateError "Cannot chargeback transaction not in dispute"), a)

/-- The per-partition loop of `compute_account_totals` in `main.rs`:
records are applied in order, business-rule failures are swallowed and
processing continues with the next record; a panic aborts (`none`). -/
def applyList : ClientAccount → List Transaction → Option ClientAccount
  | a, [] => some a
  | a, t :: ts =>
      match a.applyTransaction t with
      | none => none
      | some (_, a1) => applyList a1 ts

/-- Claim C1: every business-rule failure of `apply_transaction` leaves
`available`, `held`, `locked` and `history` exactly as they were before the
call. -/
theorem C1_failure_atomicity (a : ClientAccount) (t : Transaction)
    (e : KrakenError) (a1 : ClientAccount)
    (h : a.applyTransaction t = some (.err e, a1)) :
    a1.available = a.available ∧ a1.held = a.held ∧
    a1.locked = a.locked ∧ a1.history = a.history := by
  obtain ⟨kind, client, amount, tx, state⟩ := t
  cases kind <;>
    (simp only [ClientAccount.applyTransaction] at h
     repeat' split at h
     all_goals simp_all)

def wLockedAcct : ClientAccount :=
  { available := 3, held := 0, locked := true, history := [] }

def wDeposit1 : Transaction :=
  { kind := .Deposit, client := 1, amount := some 1, tx := 1, state := none }

theorem C1_failure_atomicity_witness :
    wLockedAcct.applyTransaction wDeposit1 =
      some (.err (.AccountLocked 1), wLockedAcct) ∧
    (wLockedAcct.available = wLockedAcct.available ∧
     wLockedAcct.held = wLockedAcct.held ∧
     wLockedAcct.locked = wLockedAcct.locked ∧
     wLockedAcct.history = wLockedAcct.history) :=
  ⟨by decide, C1_failure_atomicity wLockedAcct wDeposit1 (.AccountLocked 1) wLockedAcct (by decide)⟩

/-- Claim C2: the Dispute arm fails with `NoSuchTransactionError` when `tx`
is absent from history; with `DisputeStateError` when the stored entry is
already in some dispute state; with the generic error when the stored entry
is not a Deposit; and otherwise succeeds, moving the stored amount from
`available` into `held` and marking the entry disputed — with no condition
on `locked`, so a locked account is also accepted. -/
theorem C2_dispute_transition (a : ClientAccount) (t : Transaction)
    (hk : t.kind = .Dispute) :
    (hGet a.history t.tx = none →
      a.applyTransaction t = some (.err (.NoSuchTransactionError t.tx), a)) ∧
    (∀ stored, hGet a.history t.tx = some stored →
      (stored.state ≠ none →
        a.applyTransaction t =
          some (.err (.DisputeStateError "Transaction already disputed"), a)) ∧
      (stored.state = none → stored.kind ≠ .Deposit →
        a.applyTransaction t = some (.err .Error, a)) ∧
      (∀ amt, stored.state = none → stored.kind = .Deposit →
        stored.amount = some amt →
        a.applyTransaction t = some (.ok,
          { a with available := a.available - amt, held := a.held + amt,
                   history := hInsert a.history t.tx
                     { stored with state := some .Dispute } }))) := by
  refine ⟨fun hg => ?_, fun stored hg => ⟨fun hs => ?_, fun hs hd => ?_, fun amt hs hd ha => ?_⟩⟩
  · simp [ClientAccount.applyTransaction, hk, hg]
  · rcases h : stored.state with _ | k
    · exact absurd h hs
    · simp [ClientAccount.applyTransaction, hk, hg, h]
  · simp [ClientAccount.applyTransaction, hk, hg, hs, hd]
  · simp [ClientAccount.applyTransaction, hk, hg, hs, hd, ha]

def wStoredDep : Transaction :=
  { kind := .Deposit, client := 1, amount := some 5, tx := 7, state := none }

def wAcct5 : ClientAccount :=
  { available := 5, held := 0, locked := false, history := [(7, wStoredDep)] }

def wDispute7 : Transaction :=
  { kind := .Dispute, client := 1, amount := none, tx := 7, state := none }

theorem C2_dispute_transition_witness :
    wDispute7.kind = .Dispute ∧
    (hGet wAcct5.history 7 = some wStoredDep ∧
     wStoredDep.state = none ∧ wStoredDep.kind = .Deposit ∧
     wStoredDep.amount = some 5) ∧
    wAcct5.applyTransaction wDispute7 = some (.ok,
      { wAcct5 with available := wAcct5.available - 5, held := wAcct5.held + 5,
                    history := hInsert wAcct5.history 7
                      { wStoredDep with state := some .Dispute } }) :=
  ⟨rfl, ⟨by decide, by decide, by decide, by decide⟩,
    ((C2_dispute_transition wAcct5 wDispute7 rfl).2 wStoredDep (by decide)).2.2
      5 (by decide) (by decide) (by decide)⟩

/-- Claim C3: the Chargeback arm fails with `NoSuchTransactionError` when
`tx` is absent, with `DisputeStateError` unless the stored entry is
currently disputed, and otherwise succeeds, removing the stored amount from
`held`, marking the entry charged back and locking the account, while
`available` is unchanged. -/
theorem C3_chargeback_transition (a : ClientAccount) (t : Transaction)
    (hk : t.kind = .Chargeback) :
    (hGet a.history t.tx = none →
      a.applyTransaction t = some (.err (.NoSuchTransactionError t.tx), a)) ∧
    (∀ stored, hGet a.history t.tx = some stored →
      (stored.state ≠ some .Dispute →
        a.applyTransaction t = some
          (.err (.DisputeStateError "Cannot chargeback transaction not in dispute"), a)) ∧
      (∀ amt, stored.state = some .Dispute → stored.amount = some amt →
        a.applyTransaction t = some (.ok,
          { a with held := a.held - amt, locked := true,
                   history := hInsert a.history t.tx
                     { stored with state := some .Chargeback } }))) := by
  refine ⟨fun hg => ?_, fun stored hg => ⟨fun hs => ?_, fun amt hs ha => ?_⟩⟩
  · simp [ClientAccount.applyTransaction, hk, hg]
  · rcases h : stored.state with _ | k
    · simp [ClientAccount.applyTransaction, hk, hg, h]
    · cases k <;> simp_all [ClientAccount.applyTransaction, hk, hg]
  · simp [ClientAccount.applyTransaction, hk, hg, hs, ha]

def wDisputedDep : Transaction :=
  { kind := .Deposit, client := 1, amount := some 5, tx := 7, state := some .Dispute }

def wAcctHeld : ClientAccount :=
  { available := 0, held := 5, locked := false, history := [(7, wDisputedDep)] }

def wChargeback7 : Transaction :=
  { kind := .Chargeback, client := 1, amount := none, tx := 7, state := none }

theorem C3_chargeback_transition_witness :
    wChargeback7.kind = .Chargeback ∧
    (hGet wAcctHeld.history 7 = some wDisputedDep ∧
     wDisputedDep.state = some .Dispute ∧ wDisputedDep.amount = some 5) ∧
    wAcctHeld.applyTransaction wChargeback7 = some (.ok,
      { wAcctHeld with held := wAcctHeld.held - 5, locked := true,
                       history := hInsert wAcctHeld.history 7
                         { wDisputedDep with state := some .Chargeback } }) :=
  ⟨rfl, ⟨by decide, by decide, by decide⟩,
    ((C3_chargeback_transition wAcctHeld wChargeback7 rfl).2 wDisputedDep (by decide)).2
      5 (by decide) (by decide)⟩

/-- No arm of `apply_transaction` ever clears the `locked` flag. -/
lemma locked_step (a : ClientAccount) (t : Transaction) (r : TxResult)
    (a1 : ClientAccount) (h : a.applyTransaction t = some (r, a1))
    (hl : a.locked = true) : a1.locked = true := by
  obtain ⟨kind, client, amount, tx, state⟩ := t
  cases kind <;>
    (simp only [ClientAccount.applyTransaction] at h
     repeat' split at h
     all_goals simp_all
     all_goals (obtain ⟨hr, ha1⟩ := h; subst ha1; simp_all))

/-- Claim C4: once an account is locked it stays locked across any sequence
of applied records, and on a locked account every Deposit or Withdrawal
fails with `AccountLocked` leaving `available` and `held` unchanged. -/
theorem C4_lock_permanence :
    (∀ (a : ClientAccount) (ts : List Transaction) (a1 : ClientAccount),
      a.locked = true → applyList a ts = some a1 → a1.locked = true) ∧
    (∀ (a : ClientAccount) (t : Transaction) (r : TxResult) (a1 : ClientAccount),
      a.locked = true → (t.kind = .Deposit ∨ t.kind = .Withdrawal) →
      a.applyTransaction t = some (r, a1) →
      r = .err (.AccountLocked t.client) ∧
      a1.available = a.available ∧ a1.held = a.held) := by
  constructor
  · intro a ts
    induction ts generalizing a with
    | nil =>
        intro a1 hl h
        simp only [applyList, Option.some.injEq] at h
        subst h
        exact hl
    | cons t ts ih =>
        intro a1 hl h
        simp only [applyList] at h
        rcases hstep : a.applyTransaction t with _ | p
        · rw [hstep] at h; exact absurd h (by simp)
        · rw [hstep] at h
          exact ih p.2 a1 (locked_step a t p.1 p.2 hstep hl) h
  · intro a t r a1 hl hk h
    have hd : a.applyTransaction t = some (.err (.AccountLocked t.client), a) := by
      rcases hk with hk | hk <;> simp [ClientAccount.applyTransaction, hk, hl]
    rw [hd] at h
    simp only [Option.some.injEq, Prod.mk.injEq] at h
    obtain ⟨hr, ha1⟩ := h
    subst ha1
    exact ⟨hr.symm, rfl, rfl⟩

theorem C4_lock_permanence_witness :
    wLockedAcct.locked = true ∧
    applyList wLockedAcct [wDeposit1] = some wLockedAcct ∧
    wLockedAcct.locked = true ∧
    (wDeposit1.kind = .Deposit ∨ wDeposit1.kind = .Withdrawal) ∧
    wLockedAcct.applyTransaction wDeposit1 =
      some (.err (.AccountLocked 1), wLockedAcct) ∧
    (TxResult.err (.AccountLocked wDeposit1.client) =
        TxResult.err (.AccountLocked wDeposit1.client) ∧
      wLockedAcct.available = wLockedAcct.available ∧
      wLockedAcct.held = wLockedAcct.held) :=
  ⟨rfl, by decide, C4_lock_permanence.1 wLockedAcct [wDeposit1] wLockedAcct rfl (by decide),
    Or.inl rfl, by decide,
    C4_lock_permanence.2 wLockedAcct wDeposit1 (.err (.AccountLocked 1)) wLockedAcct rfl
      (Or.inl rfl) (by decide)⟩

/-- Claim C5: a Withdrawal on a locked account fails with `AccountLocked`;
on an unlocked account it fails with `InsufficientFunds` exactly when
`available < amount` (so withdrawing exactly the available balance
succeeds), and on success `available` is decreased by the amount and the
record is stored in history under its `tx` key. -/
theorem C5_withdrawal_transition (a : ClientAccount) (t : Transaction)
    (amt : Rat) (hk : t.kind = .Withdrawal) (ha : t.amount = some amt) :
    (a.locked = true →
      a.applyTransaction t = some (.err (.AccountLocked t.client), a)) ∧
    (a.locked = false →
      (a.applyTransaction t = some (.err (.InsufficientFunds t.client), a) ↔
        a.available < amt) ∧
      (amt ≤ a.available →
        a.applyTransaction t = some (.ok,
          { a with available := a.available - amt,
                   history := hInsert a.history t.tx t }))) := by
  refine ⟨fun hl => ?_, fun hl => ⟨?_, fun hle => ?_⟩⟩
  · simp [ClientAccount.applyTransaction, hk, hl]
  · by_cases hlt : a.available < amt
    · simp [ClientAccount.applyTransaction, hk, hl, ha, hlt]
    · simp [ClientAccount.applyTransaction, hk, hl, ha, hlt]
  · have hlt : ¬a.available < amt := not_lt.mpr hle
    simp [ClientAccount.applyTransaction, hk, hl, ha, hlt]

def wAcct100 : ClientAccount :=
  { available := 100, held := 0, locked := false, history := [] }

def wWithdraw100 : Transaction :=
  { kind := .Withdrawal, client := 1, amount := some 100, tx := 2, state := none }

theorem C5_withdrawal_transition_witness :
    wWithdraw100.kind = .Withdrawal ∧ wWithdraw100.amount = some 100 ∧
    wAcct100.locked = false ∧ (100 : Rat) ≤ wAcct100.available ∧
    wAcct100.applyTransaction wWithdraw100 = some (.ok,
      { wAcct100 with available := wAcct100.available - 100,
                      history := hInsert wAcct100.history 2 wWithdraw100 }) :=
  ⟨rfl, rfl, rfl, by norm_num [wAcct100],
    ((C5_withdrawal_transition wAcct100 wWithdraw100 100 rfl rfl).2 rfl).2
      (by norm_num [wAcct100])⟩

/-- Claim C6: the Resolve arm fails with `NoSuchTransactionError` when `tx`
is absent, with `DisputeStateError` unless the stored entry is currently
disputed (in particular against an undisputed entry, with the account
returned unchanged), and otherwise succeeds, moving the stored amount from
`held` back into `available` and marking the entry resolved. -/
theorem C6_resolve_transition (a : ClientAccount) (t : Transaction)
    (hk : t.kind = .Resolve) :
    (hGet a.history t.tx = none →
      a.applyTransaction t = some (.err (.NoSuchTransactionError t.tx), a)) ∧
    (∀ stored, hGet a.history t.tx = some stored →
      (stored.state ≠ some .Dispute →
        a.applyTransaction t = some
          (.err (.DisputeStateError "Cannot resolve transaction not in dispute"), a)) ∧
      (∀ amt, stored.state = some .Dispute → stored.amount = some amt →
        a.applyTransaction t = some (.ok,
          { a with available := a.available + amt, held := a.held - amt,
                   history := hInsert a.history t.tx
                     { stored with state := some .Resolve } }))) := by
  refine ⟨fun hg => ?_, fun stored hg => ⟨fun hs => ?_, fun amt hs ha => ?_⟩⟩
  · simp [ClientAccount.applyTransaction, hk, hg]
  · rcases h : stored.state with _ | k
    · simp [ClientAccount.applyTransaction, hk, hg, h]
    · cases k <;> simp_all [ClientAccount.applyTransaction, hk, hg]
  · simp [ClientAccount.applyTransaction, hk, hg, hs, ha]

def wResolve7 : Transaction :=
  { kind := .Resolve, client := 1, amount := none, tx := 7, state := none }

theorem C6_resolve_transition_witness :
    wResolve7.kind = .Resolve ∧
    (hGet wAcct5.history 7 = some wStoredDep ∧ wStoredDep.state ≠ some .Dispute) ∧
    wAcct5.applyTransaction wResolve7 = some
      (.err (.DisputeStateError "Cannot resolve transaction not in dispute"), wAcct5) :=
  ⟨rfl, ⟨by decide, by decide⟩,
    ((C6_resolve_transition wAcct5 wResolve7 rfl).2 wStoredDep (by decide)).1 (by decide)⟩

/-- Lookup after overwriting insertion finds the new entry: the model of
`HashMap::insert` replacing any prior value under the same key. -/
lemma hGet_hInsert_same (h : List (Nat × Transaction)) (key : Nat) (t : Transaction) :
    hGet (hInsert h key t) key = some t := by
  induction h with
  | nil => simp [hInsert, hGet]
  | cons p rest ih =>
      obtain ⟨k, u⟩ := p
      by_cases hk : k = key
      · simp [hInsert, hGet, hk]
      · simp [hInsert, hGet, hk, ih]

/-- Claim C7: a Deposit on an unlocked account always succeeds, increasing
`available` by the amount and storing the record under its `tx` key; when
an entry already exists under that key it is silently replaced (the lookup
after the insert returns the new record), never rejected; on a locked
account the deposit fails with `AccountLocked`. -/
theorem C7_deposit_transition (a : ClientAccount) (t : Transaction)
    (amt : Rat) (hk : t.kind = .Deposit) (ha : t.amount = some amt) :
    (a.locked = true →
      a.applyTransaction t = some (.err (.AccountLocked t.client), a)) ∧
    (a.locked = false →
      a.applyTransaction t = some (.ok,
        { a with available := a.available + amt,
                 history := hInsert a.history t.tx t }) ∧
      hGet (hInsert a.history t.tx t) t.tx = some t) := by
  refine ⟨fun hl => ?_, fun hl => ⟨?_, hGet_hInsert_same a.history t.tx t⟩⟩
  · simp [ClientAccount.applyTransaction, hk, hl]
  · simp [ClientAccount.applyTransaction, hk, hl, ha]

def wDeposit7b : Transaction :=
  { kind := .Deposit, client := 1, amount := some 2, tx := 7, state := none }

theorem C7_deposit_transition_witness :
    wDeposit7b.kind = .Deposit ∧ wDeposit7b.amount = some 2 ∧
    wAcct5.locked = false ∧
    wAcct5.applyTransaction wDeposit7b = some (.ok,
      { wAcct5 with available := wAcct5.available + 2,
                    history := hInsert wAcct5.history 7 wDeposit7b }) ∧
    hGet (hInsert wAcct5.history 7 wDeposit7b) 7 = some wDeposit7b :=
  ⟨rfl, rfl, rfl,
    ((C7_deposit_transition wAcct5 wDeposit7b 2 rfl rfl).2 rfl).1,
    ((C7_deposit_transition wAcct5 wDeposit7b 2 rfl rfl).2 rfl).2⟩

/-- A successful lookup comes from an entry of the list, with the key it
was looked up under. -/
lemma hGet_mem (h : List (Nat × Transaction)) (key : Nat) (tr : Transaction)
    (hg : hGet h key = some tr) : (key, tr) ∈ h := by
  induction h with
  | nil => exact absurd hg (by simp [hGet])
  | cons p rest ih =>
      obtain ⟨k, u⟩ := p
      by_cases hk : k = key
      · subst hk
        simp only [hGet, if_pos, Option.some.injEq] at hg
        subst hg
        exact List.mem_cons_self _ _
      · simp only [hGet, if_neg hk] at hg
        exact List.mem_cons_of_mem _ (ih hg)

/-- Claim C8: when every history entry carries an amount and the record
carries one whenever its kind is Deposit or Withdrawal, `apply_transaction`
cannot panic: it returns `some` outcome, success or a typed error. -/
theorem C8_no_panic (a : ClientAccount) (t : Transaction)
    (hh : ∀ p ∈ a.history, (Prod.snd p).amount ≠ none)
    (ht : t.kind = .Deposit ∨ t.kind = .Withdrawal → t.amount ≠ none) :
    ∃ r a1, a.applyTransaction t = some (r, a1) := by
  suffices hne : a.applyTransaction t ≠ none by
    rcases h : a.applyTransaction t with _ | p
    · exact absurd h hne
    · exact ⟨p.1, p.2, by simp [h]⟩
  obtain ⟨kind, client, amount, tx, state⟩ := t
  cases kind
  case Deposit =>
    rcases hamt : amount with _ | amt
    · exact absurd (hamt ▸ ht (Or.inl rfl)) (by simp)
    · by_cases hl : a.locked <;>
        simp [ClientAccount.applyTransaction, hl, hamt]
  case Withdrawal =>
    rcases hamt : amount with _ | amt
    · exact absurd (hamt ▸ ht (Or.inr rfl)) (by simp)
    · by_cases hl : a.locked
      · simp [ClientAccount.applyTransaction, hl, hamt]
      · by_cases hlt : a.available < amt <;>
          simp [ClientAccount.applyTransaction, hl, hamt, hlt]
  case Dispute =>
    rcases hg : hGet a.history tx with _ | stored
    · simp [ClientAccount.applyTransaction, hg]
    · rcases hs : stored.state with _ | k
      · by_cases hd : stored.kind = TransactionType.Deposit
        · rcases hamt : stored.amount with _ | amt
          · exact absurd (hh (tx, stored) (hGet_mem a.history tx stored hg))
              (by simp [hamt])
          · simp [ClientAccount.applyTransaction, hg, hs, hd, hamt]
        · simp [ClientAccount.applyTransaction, hg, hs, hd]
      · simp [ClientAccount.applyTransaction, hg, hs]
  case Resolve =>
    rcases hg : hGet a.history tx with _ | stored
    · simp [ClientAccount.applyTransaction, hg]
    · rcases hs : stored.state with _ | k
      · simp [ClientAccount.applyTransaction, hg, hs]
      · cases k <;>
          (rcases hamt : stored.amount with _ | amt
           · exact absurd (hh (tx, stored) (hGet_mem a.history tx stored hg))
               (by simp [hamt])
           · simp [ClientAccount.applyTransaction, hg, hs, hamt])
  case Chargeback =>
    rcases hg : hGet a.history tx with _ | stored
    · simp [ClientAccount.applyTransaction, hg]
    · rcases hs : stored.state with _ | k
      · simp [ClientAccount.applyTransaction, hg, hs]
      · cases k <;>
          (rcases hamt : stored.amount with _ | amt
           · exact absurd (hh (tx, stored) (hGet_mem a.history tx stored hg))
               (by simp [hamt])
           · simp [ClientAccount.applyTransaction, hg, hs, hamt])

theorem C8_no_panic_witness :
    (∀ p ∈ wAcct5.history, (Prod.snd p).amount ≠ none) ∧
    (wDispute7.kind = .Deposit ∨ wDispute7.kind = .Withdrawal →
      wDispute7.amount ≠ none) ∧
    ∃ r a1, wAcct5.applyTransaction wDispute7 = some (r, a1) :=
  ⟨by decide, by decide, C8_no_panic wAcct5 wDispute7 (by decide) (by decide)⟩

/-- Every entry of the list after an overwriting insertion is either the
inserted pair or an entry of the original list. -/
lemma mem_hInsert (p : Nat × Transaction) (h : List (Nat × Transaction))
    (key : Nat) (t : Transaction) (hp : p ∈ hInsert h key t) :
    p = (key, t) ∨ p ∈ h := by
  induction h with
  | nil => simpa [hInsert] using hp
  | cons q rest ih =>
      obtain ⟨k, u⟩ := q
      by_cases hk : k = key
      · subst hk
        simp only [hInsert, if_pos] at hp
        rcases List.mem_cons.mp hp with h1 | h2
        · exact Or.inl h1
        · exact Or.inr (List.mem_cons_of_mem _ h2)
      · simp only [hInsert, if_neg hk] at hp
        rcases List.mem_cons.mp hp with h1 | h2
        · exact Or.inr (h1 ▸ List.mem_cons_self _ _)
        · rcases ih h2 with h3 | h4
          · exact Or.inl h3
          · exact Or.inr (List.mem_cons_of_mem _ h4)

/-- The implicit history invariant of claim C9: every stored entry carrying
a dispute state is a Deposit. -/
def DisputedOnlyDeposits (a : ClientAccount) : Prop :=
  ∀ p ∈ a.history, (Prod.snd p).state ≠ none →
    (Prod.snd p).kind = TransactionType.Deposit

/-- Inserting an entry that is undisputed or a Deposit preserves the
history invariant. -/
lemma inv_insert (a : ClientAccount) (key : Nat) (entry : Transaction)
    (hinv : DisputedOnlyDeposits a)
    (hentry : entry.state = none ∨ entry.kind = TransactionType.Deposit) :
    ∀ p ∈ hInsert a.history key entry, (Prod.snd p).state ≠ none →
      (Prod.snd p).kind = TransactionType.Deposit := by
  intro p hp hstate
  rcases mem_hInsert p a.history key entry hp with hpe | hmem
  · subst hpe
    rcases hentry with hnone | hdep
    · exact absurd hnone hstate
    · exact hdep
  · exact hinv p hmem hstate

/-- Extracting the post-state from a successful or failed step. -/
lemma eq_state (x : TxResult) (a b : ClientAccount) (r : TxResult)
    (h : (some (x, a) : Option (TxResult × ClientAccount)) = some (r, b)) :
    a = b := by
  cases h; rfl

/-- One application of an input record (whose dispute bookkeeping field
starts out empty) preserves the history invariant. -/
lemma inv_step (a : ClientAccount) (t : Transaction) (r : TxResult)
    (a1 : ClientAccount) (hts : t.state = none)
    (hinv : DisputedOnlyDeposits a)
    (h : a.applyTransaction t = some (r, a1)) : DisputedOnlyDeposits a1 := by
  obtain ⟨kind, client, amount, tx, state⟩ := t
  replace hts : state = none := hts
  subst hts
  cases kind
  case Deposit =>
    simp only [ClientAccount.applyTransaction] at h
    split at h
    · exact eq_state _ _ _ _ h ▸ hinv
    · split at h
      · cases h
      · exact eq_state _ _ _ _ h ▸ inv_insert a tx _ hinv (Or.inr rfl)
  case Withdrawal =>
    simp only [ClientAccount.applyTransaction] at h
    split at h
    · exact eq_state _ _ _ _ h ▸ hinv
    · split at h
      · cases h
      · split at h
        · exact eq_state _ _ _ _ h ▸ hinv
        · exact eq_state _ _ _ _ h ▸ inv_insert a tx _ hinv (Or.inl rfl)
  case Dispute =>
    simp only [ClientAccount.applyTransaction] at h
    split at h
    · exact eq_state _ _ _ _ h ▸ hinv
    · rename_i stored heq
      split at h
      · exact eq_state _ _ _ _ h ▸ hinv
      · split at h
        · exact eq_state _ _ _ _ h ▸ hinv
        · rename_i hss hsk
          split at h
          · cases h
          · exact eq_state _ _ _ _ h ▸
              inv_insert a tx _ hinv (Or.inr (not_not.mp hsk))
  case Resolve =>
    simp only [ClientAccount.applyTransaction] at h
    split at h
    · exact eq_state _ _ _ _ h ▸ hinv
    · rename_i stored heq
      split at h
      · rename_i hs
        split at h
        · cases h
        · have hdep : stored.kind = TransactionType.Deposit :=
            hinv (tx, stored) (hGet_mem a.history tx stored heq) (by simp [hs])
          exact eq_state _ _ _ _ h ▸ inv_insert a tx _ hinv (Or.inr hdep)
      · exact eq_state _ _ _ _ h ▸ hinv
  case Chargeback =>
    simp only [ClientAccount.applyTransaction] at h
    split at h
    · exact eq_state _ _ _ _ h ▸ hinv
    · rename_i stored heq
      split at h
      · rename_i hs
        split at h
        · cases h
        · have hdep : stored.kind = TransactionType.Deposit :=
            hinv (tx, stored) (hGet_mem a.history tx stored heq) (by simp [hs])
          exact eq_state _ _ _ _ h ▸ inv_insert a tx _ hinv (Or.inr hdep)
      · exact eq_state _ _ _ _ h ▸ hinv

/-- Processing any list of input records preserves the history invariant. -/
lemma inv_list (ts : List Transaction) (a a1 : ClientAccount)
    (hins : ∀ t ∈ ts, t.state = none) (hinv : DisputedOnlyDeposits a)
    (h : applyList a ts = some a1) : DisputedOnlyDeposits a1 := by
  induction ts generalizing a with
  | nil =>
      simp only [applyList, Option.some.injEq] at h
      exact h ▸ hinv
  | cons t ts ih =>
      simp only [applyList] at h
      rcases hstep : a.applyTransaction t with _ | p
      · rw [hstep] at h; exact absurd h (by simp)
      · rw [hstep] at h
        exact ih p.2 (fun u hu => hins u (List.mem_cons_of_mem _ hu))
          (inv_step a t p.1 p.2 (hins t (List.mem_cons_self _ _)) hinv hstep) h

/-- Claim C9: the freshly-created zeroed account satisfies the invariant
that every history entry carrying a dispute state is a Deposit;
`apply_transaction` on an input record preserves it; hence every account
reachable by processing a list of input records satisfies it. -/
theorem C9_disputed_entries_are_deposits :
    DisputedOnlyDeposits defaultAccount ∧
    (∀ (a : ClientAccount) (t : Transaction) (r : TxResult) (a1 : ClientAccount),
      t.state = none → DisputedOnlyDeposits a →
      a.applyTransaction t = some (r, a1) → DisputedOnlyDeposits a1) ∧
    (∀ (ts : List Transaction) (a1 : ClientAccount),
      (∀ t ∈ ts, t.state = none) →
      applyList defaultAccount ts = some a1 → DisputedOnlyDeposits a1) := by
  refine ⟨?_, fun a t r a1 hts hinv h => inv_step a t r a1 hts hinv h,
    fun ts a1 hins h => inv_list ts defaultAccount a1 hins ?_ h⟩ <;>
    (intro p hp
     simp [defaultAccount] at hp)

def wAcct1 : ClientAccount :=
  { available := 1, held := 0, locked := false, history := [(1, wDeposit1)] }

theorem C9_disputed_entries_are_deposits_witness :
    (∀ t ∈ [wDeposit1], t.state = none) ∧
    applyList defaultAccount [wDeposit1] = some wAcct1 ∧
    DisputedOnlyDeposits wAcct1 :=
  ⟨by decide,
    by simp [applyList, ClientAccount.applyTransaction, defaultAccount,
      wDeposit1, wAcct1, hInsert],
    C9_disputed_entries_are_deposits.2.2 [wDeposit1] wAcct1 (by decide)
      (by simp [applyList, ClientAccount.applyTransaction, defaultAccount,
        wDeposit1, wAcct1, hInsert])⟩

/-- Claim C10: on an unlocked account holding a disputed history entry
under `txid`, a fresh Deposit with the same `tx` succeeds and replaces the
entry with the new, undisputed record while `held` keeps the previously
disputed amount; afterwards Resolve and Chargeback against `txid` fail
with `DisputeStateError`, and a fresh Dispute against the replacing entry
succeeds, moving its amount into `held` a second time. -/
theorem C10_redeposit_overwrites_disputed (a : ClientAccount) (txid : Nat)
    (stored : Transaction) (t : Transaction) (amt : Rat) (a1 : ClientAccount)
    (hl : a.locked = false)
    (hg : hGet a.history txid = some stored)
    (hss : stored.state = some .Dispute)
    (htk : t.kind = .Deposit) (htx : t.tx = txid)
    (hta : t.amount = some amt) (hts : t.state = none)
    (ha1 : a1 = { a with available := a.available + amt,
                         history := hInsert a.history txid t }) :
    a.applyTransaction t = some (.ok, a1) ∧
    a1.held = a.held ∧
    hGet a1.history txid = some t ∧
    (∀ r : Transaction, r.kind = .Resolve → r.tx = txid →
      a1.applyTransaction r = some
        (.err (.DisputeStateError "Cannot resolve transaction not in dispute"), a1)) ∧
    (∀ c : Transaction, c.kind = .Chargeback → c.tx = txid →
      a1.applyTransaction c = some
        (.err (.DisputeStateError "Cannot chargeback transaction not in dispute"), a1)) ∧
    (∀ d : Transaction, d.kind = .Dispute → d.tx = txid →
      a1.applyTransaction d = some (.ok,
        { a1 with available := a1.available - amt, held := a1.held + amt,
                  history := hInsert a1.history txid
                    { t with state := some .Dispute } })) := by
  subst ha1
  refine ⟨?_, rfl, hGet_hInsert_same a.history txid t, fun r hrk hrtx => ?_,
    fun c hck hctx => ?_, fun d hdk hdtx => ?_⟩
  · simp [ClientAccount.applyTransaction, htk, hl, hta, htx]
  · simp [ClientAccount.applyTransaction, hrk, hrtx, hGet_hInsert_same, hts]
  · simp [ClientAccount.applyTransaction, hck, hctx, hGet_hInsert_same, hts]
  · simp [ClientAccount.applyTransaction, hdk, hdtx, hGet_hInsert_same, hts, htk, hta]

def wRedepositAcct : ClientAccount :=
  { wAcctHeld with available := wAcctHeld.available + 2,
                   history := hInsert wAcctHeld.history 7 wDeposit7b }

theorem C10_redeposit_overwrites_disputed_witness :
    (wAcctHeld.locked = false ∧
     hGet wAcctHeld.history 7 = some wDisputedDep ∧
     wDisputedDep.state = some .Dispute ∧
     wDeposit7b.kind = .Deposit ∧ wDeposit7b.tx = 7 ∧
     wDeposit7b.amount = some 2 ∧ wDeposit7b.state = none) ∧
    wAcctHeld.applyTransaction wDeposit7b = some (.ok, wRedepositAcct) ∧
    wRedepositAcct.held = wAcctHeld.held ∧
    hGet wRedepositAcct.history 7 = some wDeposit7b ∧
    wRedepositAcct.applyTransaction wResolve7 = some
      (.err (.DisputeStateError "Cannot resolve transaction not in dispute"),
        wRedepositAcct) ∧
    wRedepositAcct.applyTransaction wChargeback7 = some
      (.err (.DisputeStateError "Cannot chargeback transaction not in dispute"),
        wRedepositAcct) ∧
    wRedepositAcct.applyTransaction wDispute7 = some (.ok,
      { wRedepositAcct with
          available := wRedepositAcct.available - 2,
          held := wRedepositAcct.held + 2,
          history := hInsert wRedepositAcct.history 7
            { wDeposit7b with state := some .Dispute } }) :=
  have h := C10_redeposit_overwrites_disputed wAcctHeld 7 wDisputedDep
    wDeposit7b 2 wRedepositAcct rfl (by decide) (by decide) (by decide)
    (by decide) (by decide) (by decide) rfl
  ⟨⟨rfl, by decide, by decide, by decide, by decide, by decide, by decide⟩,
    h.1, h.2.1, h.2.2.1, h.2.2.2.1 wResolve7 rfl rfl,
    h.2.2.2.2.1 wChargeback7 rfl rfl, h.2.2.2.2.2 wDispute7 rfl rfl⟩

end PaymentProcessor
